import Mathlib

/-!
Verification development for the `pore` repository-mirroring tool
(`src/main.rs`, `src/depot.rs`).

The definitions below are shallow embeddings of the Rust source:
pure string/path computations are translated directly; the filesystem
is modelled as an association list from paths (component lists) to
nodes; fallible operations return `Except String`.
-/

/-- A filesystem path, as its list of components below the root.
Rendered as an absolute path by `renderPath`. -/
abbrev FPath := List String

/-- A filesystem node: a regular file with its byte content (modelled as a
`String`), or a directory. -/
inductive Node where
  | file (data : String)
  | dir
deriving DecidableEq, Repr

/-- The filesystem, as an association list from paths to nodes.  Lookup takes
the first match, so "writes that overwrite" cons to the front. -/
abbrev Fs := List (FPath × Node)

/-- First-match lookup in the association-list filesystem. -/
def lookupFs (fs : Fs) (p : FPath) : Option Node :=
  match fs with
  | [] => none
  | (q, n) :: rest => if q = p then some n else lookupFs rest p

/-- `true` iff `p` is a regular file in `fs`. -/
def isFileAt (p : FPath) (fs : Fs) : Bool :=
  match lookupFs fs p with
  | some (Node.file _) => true
  | _ => false

/-- All entries of `fs` whose path lies in the subtree rooted at `root`
(`root` itself included), in list order. -/
def subtreeList (root : FPath) (fs : Fs) : Fs :=
  fs.filter (fun e => root.isPrefixOf e.1)

/-- Remove the whole subtree rooted at `root` (models
`std::fs::remove_dir_all`'s effect on the tree). -/
def removeSubtree (root : FPath) (fs : Fs) : Fs :=
  fs.filter (fun e => !(root.isPrefixOf e.1))

/-- The direct children of directory `root`: name and node of every entry
whose path is `root` plus exactly one component (models
`std::fs::read_dir`'s listing). -/
def childEntries (root : FPath) (fs : Fs) : List (String × Node) :=
  fs.filterMap (fun e =>
    if root.isPrefixOf e.1 && e.1.length == root.length + 1 then
      some (e.1.getLastD "", e.2)
    else none)

/-- Render a component-list path as an absolute path string, as
`PathBuf::to_str` shows it for a path rooted at `/`. -/
def renderPath (p : FPath) : String :=
  String.mk (p.foldr (fun c acc => '/' :: c.toList ++ acc) [])

/-- `Path::join` on path strings: concatenates with a single `/` separator
(no separator added when the base is empty or already ends in one). -/
def pathJoin (base comp : String) : String :=
  if base = "" then comp
  else if base.toList.getLastD ' ' == '/' then base ++ comp
  else base ++ "/" ++ comp

/-- `src/depot.rs` lines 110-113, `Depot::objects_mirror`: the object
mirror of `project` lives at `<depot>/objects/<project>.git`. -/
def objects_mirror (depotPath project : String) : String :=
  pathJoin (pathJoin depotPath "objects") (project ++ ".git")

/-- `src/depot.rs` lines 115-119, `Depot::refs_mirror`: the ref mirror for
`(remote, project)` lives at `<depot>/refs/<remote>/<project>.git`. -/
def refs_mirror (depotPath remote project : String) : String :=
  pathJoin (pathJoin (pathJoin depotPath "refs") remote) (project ++ ".git")

/-- Rust `str::starts_with('/')`. -/
def startsWithSlash (s : String) : Bool :=
  match s.toList with
  | [] => false
  | c :: _ => c == '/'

/-- Rust `str::ends_with('/')`. -/
def endsWithSlash (s : String) : Bool :=
  match s.toList.getLast? with
  | none => false
  | some c => c == '/'

/-- A character that may start a URL scheme (ASCII alphabetic), per the URL
Standard implemented by the `url` crate. -/
def isSchemeStartChar (c : Char) : Bool := c.isAlpha

/-- A character that may continue a URL scheme (ASCII alphanumeric, `+`,
`-` or `.`), per the URL Standard implemented by the `url` crate. -/
def isSchemeChar (c : Char) : Bool :=
  c.isAlphanum || c == '+' || c == '-' || c == '.'

/-- Scheme extraction of `url::Url::parse` (the URL Standard): the input has
a scheme iff it begins with an ASCII-alphabetic-led run of scheme characters
followed by `:`; the scheme is that run, lowercased.  Otherwise parsing
fails (`RelativeUrlWithoutBase`).  Parsing can also fail for later reasons
(e.g. an invalid port) that do not affect the scheme and are not modelled;
`Depot::fetch_repo` only consults the scheme. -/
def url_scheme_chars : List Char → Option (List Char)
  | [] => none
  | c :: rest =>
    if isSchemeStartChar c then
      let run := (c :: rest).takeWhile isSchemeChar
      match (c :: rest).drop run.length with
      | ':' :: _ => some (run.map Char.toLower)
      | _ => none
    else none

/-- See `url_scheme_chars`; the scheme as a string. -/
def url_scheme (s : String) : Option String :=
  (url_scheme_chars s.toList).map String.mk

/-- `src/depot.rs` line 150: the schemes the native (libgit2) transport
accepts in `Depot::fetch_repo`. -/
def schemeSupported (scheme : String) : Bool :=
  scheme == "git" || scheme == "https" || scheme == "http" || scheme == "ssh" || scheme == ""

/-- Rust `split('/')` on the character list of a string: splits at every
separator, keeping empty chunks. -/
def splitOnChar (sep : Char) : List Char → List (List Char)
  | [] => [[]]
  | c :: rest =>
    if c = sep then [] :: splitOnChar sep rest
    else
      match splitOnChar sep rest with
      | [] => [[c]]
      | h :: t => (c :: h) :: t

/-- The `/`-separated components of a string, as strings. -/
def slashComponents (s : String) : List String :=
  (splitOnChar '/' s.toList).map String.mk

/-- `src/main.rs` lines 75-84, `parse_target`: split the clone target on
`/`; one component means branch `master`, two components are
`(remote, branch)`, anything else is invalid. -/
def parse_target (target : String) : Except String (String × String) :=
  match slashComponents target with
  | [r] => Except.ok (r, "master")
  | [r, b] => Except.ok (r, b)
  | _ => Except.error ("invalid target '" ++ target ++ "'")

/-- `src/main.rs` lines 94-98, start of `cmd_clone`: the tree root directory
that `cmd_clone` creates is the `DIRECTORY` argument when given, else the
branch parsed from the target. -/
def cmd_clone_tree_root (target : String) (directory : Option String) :
    Except String String :=
  match parse_target target with
  | Except.error e => Except.error e
  | Except.ok (_, b) => Except.ok (directory.getD b)

/-- A top-level error as the `failure` crate presents it in `main`:
the displayed message of the outermost failure, and the displayed messages
of the chain of causes below it (empty when the failure has no cause). -/
structure TopError where
  message : String
  causeChain : List String
deriving DecidableEq, Repr

/-- `failure::Fail::find_root_cause` applied to the first cause: the
bottom-most failure in the chain. -/
def find_root_cause (e : TopError) : String :=
  e.causeChain.getLastD e.message

/-- `src/main.rs` lines 419-431: how `main` disposes of the result of the
subcommand.  Returns the lines written to standard error and the process
exit code.  On `Ok(rc)` it calls `process::exit(rc)`; on `Err` it writes the
`fatal:` line (with the root cause only when a cause exists) and then falls
off the end of `main`, so the process exits with code 0. -/
def main_result_handler (r : Except TopError Int) : List String × Int :=
  match r with
  | Except.ok rc => ([], rc)
  | Except.error e =>
    match e.causeChain with
    | [] => (["fatal: " ++ e.message], 0)
    | _ :: _ => (["fatal: " ++ e.message ++ ": " ++ find_root_cause e], 0)

/-- `std::fs::remove_dir_all` as used at `src/depot.rs` line 91: succeeds on
a directory, removing its whole subtree; fails on a regular file or a
missing path. -/
def remove_dir_all (p : FPath) (fs : Fs) : Except String Fs :=
  match lookupFs fs p with
  | some Node.dir => Except.ok (removeSubtree p fs)
  | some (Node.file _) => Except.error "failed to delete: not a directory"
  | none => Except.error "failed to delete: no such path"

/-- The ancestors of `p` (root included) together with `p` itself that are
absent from `fs`, as fresh directory entries, in root-to-leaf order. -/
def missingInits (p : FPath) (fs : Fs) : Fs :=
  (p.inits.filter (fun q => (lookupFs fs q).isNone)).map (fun q => (q, Node.dir))

/-- `std::fs::create_dir_all` as used at `src/depot.rs` line 94: creates
`p` and any missing ancestors as directories; fails when a component of the
path exists as a regular file. -/
def create_dir_all (p : FPath) (fs : Fs) : Except String Fs :=
  if p.inits.any (fun q => isFileAt q fs) then
    Except.error "failed to create directory"
  else
    Except.ok (fs ++ missingInits p fs)

/-- `std::fs::read_dir` as used at `src/depot.rs` line 96: lists the direct
entries of a directory; fails on a file or a missing path. -/
def read_dir (p : FPath) (fs : Fs) : Except String (List (String × Node)) :=
  match lookupFs fs p with
  | some Node.dir => Except.ok (childEntries p fs)
  | _ => Except.error "failed to read directory"

/-- The copy targets produced by copying `entries` into `dst`. -/
def copiesOf (dst : FPath) (entries : List (String × Node)) : Fs :=
  entries.map (fun e => (dst ++ [e.1], e.2))

/-- The copy loop of `Depot::replace_dir` (`src/depot.rs` lines 98-105):
`std::fs::copy` of each entry into `dst`.  `std::fs::copy` copies the byte
content of a regular file and fails when the source is not a regular
file (in particular on a directory). -/
def fsCopyBatch (dst : FPath) : List (String × Node) → Fs → Except String Fs
  | [], fs => Except.ok fs
  | (n, Node.file d) :: rest, fs =>
    fsCopyBatch dst rest (fs ++ [(dst ++ [n], Node.file d)])
  | (_, Node.dir) :: _, _ =>
    Except.error "failed to copy: source is not a regular file"

/-- `src/depot.rs` lines 79-108, `Depot::replace_dir`: require the source to
exist; if the destination exists, delete it recursively; recreate it; copy
every direct entry of the source into it. -/
def replace_dir (src dst : FPath) (fs : Fs) : Except String Fs :=
  if (lookupFs fs src).isNone then
    Except.error "attempted to replace with nonexistent directory"
  else
    match (if (lookupFs fs dst).isSome then remove_dir_all dst fs else Except.ok fs) with
    | Except.error e => Except.error e
    | Except.ok fs1 =>
      match create_dir_all dst fs1 with
      | Except.error e => Except.error e
      | Except.ok fs2 =>
        match read_dir src fs2 with
        | Except.error e => Except.error e
        | Except.ok entries => fsCopyBatch dst entries fs2

/-- The filesystem produced by a successful `replace_dir src dst`
(see `replace_dir_eq`): the destination subtree is removed, the destination
(and missing ancestors) recreated, and the direct entries of `src` copied
in. -/
def replace_dir_result (src dst : FPath) (fs : Fs) : Fs :=
  let fs1 := removeSubtree dst fs
  (fs1 ++ missingInits dst fs1) ++ copiesOf dst (childEntries src fs)

/-- The git directory of a repository rooted at `p`
(`src/depot.rs` line 56): `p` itself for a bare repository, `p/.git`
otherwise. -/
def gitDirOf (p : FPath) (bare : Bool) : FPath :=
  if bare then p else p ++ [".git"]

/-- The directories and files `git2::Repository::init`/`init_bare` create
inside the git directory that this model tracks: the object database (with
its `info` and `pack` subdirectories), the ref hierarchy, and `HEAD`. -/
def initRepoEntries (gitPath : FPath) : Fs :=
  [(gitPath, Node.dir),
   (gitPath ++ ["objects"], Node.dir),
   (gitPath ++ ["objects", "info"], Node.dir),
   (gitPath ++ ["objects", "pack"], Node.dir),
   (gitPath ++ ["refs"], Node.dir),
   (gitPath ++ ["refs", "heads"], Node.dir),
   (gitPath ++ ["HEAD"], Node.file "ref: refs/heads/master\n")]

/-- `std::fs::write`: create or overwrite the file at `p`.  Prepended so
that first-match lookup sees the new content. -/
def writeFile (p : FPath) (data : String) (fs : Fs) : Fs :=
  (p, Node.file data) :: fs

/-- `src/depot.rs` lines 45-66, `Depot::clone_alternates`: initialise a new
repository at `dst` (bare or not), then write the one-line alternates
pointer `<src>/objects` plus newline into the new repository's
`objects/info/alternates`. -/
def clone_alternates_fs (src dst : FPath) (bare : Bool) (fs : Fs) : Fs :=
  let gitPath := gitDirOf dst bare
  let fs1 := fs ++ initRepoEntries gitPath
  writeFile (gitPath ++ ["objects", "info", "alternates"])
    (renderPath (src ++ ["objects"]) ++ "\n") fs1

/-- `git2::Repository::open` succeeds at `p` iff a repository is already
present there; modelled as the presence of its `HEAD` file. -/
def repoExistsAt (p : FPath) (fs : Fs) : Bool :=
  (lookupFs fs (p ++ ["HEAD"])).isSome

/-- `src/depot.rs` lines 184-193, the ref-mirror synchronisation at the end
of `Depot::fetch_repo`: open the ref mirror, creating it as a bare
alternates clone of the object mirror if it does not exist, then replace
its `refs/heads` directory with the object mirror's
`refs/remotes/<remote>` directory. -/
def sync_refs_mirror (objectsPath refsPath : FPath) (remoteName : String)
    (fs : Fs) : Except String Fs :=
  let fs1 :=
    if repoExistsAt refsPath fs then fs
    else clone_alternates_fs objectsPath refsPath true fs
  replace_dir (objectsPath ++ ["refs", "remotes", remoteName])
    (refsPath ++ ["refs", "heads"]) fs1

/-- One externally visible operation performed by `Depot::fetch_repo`.
Filesystem and network effects only; pure string computations are not
steps. -/
inductive FetchStep where
  | openOrCreateBareRepo (path : String)
  | configureRemote (name url : String)
  | nativeFetch (branch : String) (pruneOn : Bool) (downloadTags : Bool)
  | runGit (args : List String)
  | openRefsRepo (path : String)
  | cloneAlternates (src dst : String) (bare : Bool)
  | replaceDir (src dst : String)
deriving DecidableEq, Repr

/-- Outcomes of the fallible external operations `fetch_repo` performs, so
that the model's control flow can follow each of the source's error paths. -/
structure FetchOracle where
  openRepo : Except String Unit
  remoteSetup : Except String Unit
  nativeFetchResult : Except String Unit
  gitExitSuccess : Bool
  gitStderr : String
  refsRepoExists : Bool
  refsSyncResult : Except String Unit
deriving Repr

/-- The argument list of the external `git fetch` fallback
(`src/depot.rs` lines 164-176). -/
def gitFetchArgs (objectsPath remoteName branch : String)
    (depth : Option Int) : List String :=
  ["-C", objectsPath, "fetch", remoteName, branch, "--no-tags"] ++
    (match depth with
     | some d => ["--depth", toString d]
     | none => [])

/-- `src/depot.rs` lines 184-194 at the step level: open the ref mirror,
cloning it with alternates when absent, then replace its `refs/heads` with
the object mirror's `refs/remotes/<remote>`. -/
def fetchFinishRefs (o : FetchOracle) (depotPath remoteName project : String)
    (steps : List FetchStep) : List FetchStep × Except String Unit :=
  let objectsPath := objects_mirror depotPath project
  let refsPath := refs_mirror depotPath remoteName project
  let steps1 := steps ++ [FetchStep.openRefsRepo refsPath] ++
    (if o.refsRepoExists then []
     else [FetchStep.cloneAlternates objectsPath refsPath true]) ++
    [FetchStep.replaceDir (pathJoin (pathJoin objectsPath "refs") ("remotes/" ++ remoteName))
      (pathJoin (pathJoin refsPath "refs") "heads")]
  (steps1, o.refsSyncResult)

/-- `src/depot.rs` lines 121-195, `Depot::fetch_repo`, as the sequence of
externally visible steps it performs plus its result.  Control flow follows
the source: project validation first (before any I/O), then opening the
object mirror and configuring its remote, then URL parsing and the
native-vs-external transport decision, then the fetch itself, then the
ref-mirror synchronisation. -/
def fetch_repo_model (o : FetchOracle) (depotPath remoteName remoteUrl
    project branch : String) (depth : Option Int) :
    List FetchStep × Except String Unit :=
  if startsWithSlash project then
    ([], Except.error ("invalid project path " ++ project))
  else if endsWithSlash project then
    ([], Except.error ("invalid project path " ++ project))
  else
    let objectsPath := objects_mirror depotPath project
    let repoUrl := remoteUrl ++ project ++ ".git"
    let steps1 := [FetchStep.openOrCreateBareRepo objectsPath]
    match o.openRepo with
    | Except.error e => (steps1, Except.error e)
    | Except.ok _ =>
      let steps2 := steps1 ++ [FetchStep.configureRemote remoteName repoUrl]
      match o.remoteSetup with
      | Except.error e => (steps2, Except.error e)
      | Except.ok _ =>
        match url_scheme repoUrl with
        | none => (steps2, Except.error "relative URL without a base")
        | some scheme =>
          if schemeSupported scheme && depth.isNone then
            let steps3 := steps2 ++ [FetchStep.nativeFetch branch false false]
            match o.nativeFetchResult with
            | Except.error e => (steps3, Except.error ("failed to fetch: " ++ e))
            | Except.ok _ => fetchFinishRefs o depotPath remoteName project steps3
          else
            let steps3 := steps2 ++
              [FetchStep.runGit (gitFetchArgs objectsPath remoteName branch depth)]
            if o.gitExitSuccess then
              fetchFinishRefs o depotPath remoteName project steps3
            else
              (steps3, Except.error ("git fetch failed: " ++ o.gitStderr))

/-- The external-git result check at `src/depot.rs` lines 178-181: the
external fetch succeeds exactly when the spawned binary exits
successfully; otherwise the captured standard error becomes the error. -/
def external_git_result (exitSuccess : Bool) (stderr : String) :
    Except String Unit :=
  if exitSuccess then Except.ok ()
  else Except.error ("git fetch failed: " ++ stderr)

/-- A configured git remote of a working repository: its name, fetch URL
and optional push URL. -/
structure RemoteEntry where
  name : String
  url : String
  pushurl : Option String
deriving DecidableEq, Repr

/-- Where HEAD of a repository points. -/
inductive Head where
  | unborn
  | detached (commit : Nat)
  | onBranch (branch : String)
deriving DecidableEq, Repr

/-- The state of a working repository that `Depot::clone_repo` manipulates:
its remotes, its HEAD, and the commit whose tree is checked out in the
working directory. -/
structure RepoState where
  remotes : List RemoteEntry
  head : Head
  workdir : Option Nat
deriving DecidableEq, Repr

/-- `git2::Repository::remote`: add a remote with the given fetch URL;
fails when a remote of that name already exists. -/
def repo_add_remote (name url : String) (st : RepoState) :
    Except String RepoState :=
  if st.remotes.any (fun r => r.name == name) then
    Except.error "remote already exists"
  else
    Except.ok { st with remotes := st.remotes ++ [⟨name, url, none⟩] }

/-- `git2::Repository::remote_set_pushurl`: set the push URL of an existing
remote. -/
def repo_set_pushurl (name pushurl : String) (st : RepoState) :
    Except String RepoState :=
  if st.remotes.any (fun r => r.name == name) then
    Except.ok { st with remotes := st.remotes.map (fun r =>
      if r.name == name then { r with pushurl := some pushurl } else r) }
  else
    Except.error "no such remote"

/-- `src/depot.rs` lines 197-227, `Depot::clone_repo`, at the level of the
working repository's state.  `resolve` models the external
revision-resolution collaborator.  Modelled from the spec:
`util::parse_revision` is not part of the shown source; per the spec it
resolves a branch-or-ref string to a commit and fails if unresolvable.
`updateRefsOk` and `checkoutOk` are the outcomes of the fallible
`update_remote_refs` and `checkout_tree` calls. -/
def clone_repo_model (resolve : String → Option Nat)
    (depotPath remoteName remoteUrl project branch : String)
    (updateRefsOk checkoutOk : Bool) : Except String RepoState :=
  let st0 : RepoState := ⟨[], Head.unborn, none⟩
  match repo_add_remote remoteName (refs_mirror depotPath remoteName project) st0 with
  | Except.error e => Except.error e
  | Except.ok st1 =>
    match repo_set_pushurl remoteName (remoteUrl ++ project) st1 with
    | Except.error e => Except.error e
    | Except.ok st2 =>
      if !updateRefsOk then Except.error "failed to update remote refs"
      else
        match resolve branch with
        | none => Except.error "failed to parse revision"
        | some c =>
          if !checkoutOk then Except.error "failed to checkout HEAD"
          else
            Except.ok { st2 with workdir := some c, head := Head.detached c }

/-- Whether a node is a regular file. -/
def isFileNode : Node → Bool
  | Node.file _ => true
  | Node.dir => false

/-- The selector childEntries filters with. -/
def childSel (root : FPath) (e : FPath × Node) : Option (String × Node) :=
  if root.isPrefixOf e.1 && e.1.length == root.length + 1 then
    some (e.1.getLastD "", e.2)
  else none

/-- Sanity conditions on `fs`, `src` and `dst` under which `replace_dir`'s
behaviour is characterised: the two directories are not nested within one
another, the source is a directory, the destination is a directory or
wholly absent, and no ancestor of the destination is a regular file. -/
def ReplaceDirSane (src dst : FPath) (fs : Fs) : Prop :=
  src.isPrefixOf dst = false ∧ dst.isPrefixOf src = false ∧
  lookupFs fs src = some Node.dir ∧
  (lookupFs fs dst = some Node.dir ∨
    (lookupFs fs dst = none ∧ subtreeList dst fs = [])) ∧
  (∀ q ∈ dst.inits, isFileAt q fs = false)

/-- A small filesystem for exercising `replace_dir` concretely. -/
def exReplaceFs : Fs :=
  [(["s"], Node.dir), (["s", "a"], Node.file "A"), (["t"], Node.dir),
   (["t", "old"], Node.file "O")]

/-- An object mirror holding one fetched remote ref, for exercising the
ref-mirror synchronisation concretely. -/
def exMirrorFs : Fs :=
  [(["o"], Node.dir), (["o", "refs"], Node.dir),
   (["o", "refs", "remotes"], Node.dir),
   (["o", "refs", "remotes", "origin"], Node.dir),
   (["o", "refs", "remotes", "origin", "main"], Node.file "c0ffee\n")]

/-- The filesystem `sync_refs_mirror` produces on `exMirrorFs`. -/
def exMirrorOut : Fs :=
  match sync_refs_mirror ["o"] ["r"] "origin" exMirrorFs with
  | Except.ok f => f
  | Except.error _ => []

lemma lookupFs_append (a b : Fs) (p : FPath) :
    lookupFs (a ++ b) p =
      match lookupFs a p with
      | some n => some n
      | none => lookupFs b p := by
  induction a with
  | nil => simp [lookupFs]
  | cons e rest ih =>
    obtain ⟨q, n⟩ := e
    by_cases h : q = p <;> simp [lookupFs, h, ih]

lemma lookupFs_filter_of_key (P : FPath × Node → Bool) (fs : Fs) (p : FPath)
    (h : ∀ n : Node, P (p, n) = true) :
    lookupFs (fs.filter P) p = lookupFs fs p := by
  induction fs with
  | nil => simp [lookupFs]
  | cons e rest ih =>
    obtain ⟨q, n⟩ := e
    by_cases hq : q = p
    · subst hq
      simp [List.filter_cons, h n, lookupFs]
    · by_cases hP : P (q, n) = true <;>
        simp [List.filter_cons, hP, lookupFs, hq, ih]

lemma lookupFs_filter_none (P : FPath × Node → Bool) (fs : Fs) (p : FPath)
    (h : ∀ n : Node, P (p, n) = false) :
    lookupFs (fs.filter P) p = none := by
  induction fs with
  | nil => simp [lookupFs]
  | cons e rest ih =>
    obtain ⟨q, n⟩ := e
    by_cases hq : q = p
    · subst hq
      simp [List.filter_cons, h n, ih]
    · by_cases hP : P (q, n) = true <;>
        simp [List.filter_cons, hP, lookupFs, hq, ih]

lemma lookupFs_removeSubtree_of_not (dst : FPath) (fs : Fs) (p : FPath)
    (h : dst.isPrefixOf p = false) :
    lookupFs (removeSubtree dst fs) p = lookupFs fs p := by
  apply lookupFs_filter_of_key
  intro n
  simp [h]

lemma lookupFs_removeSubtree_of_pre (dst : FPath) (fs : Fs) (p : FPath)
    (h : dst.isPrefixOf p = true) :
    lookupFs (removeSubtree dst fs) p = none := by
  apply lookupFs_filter_none
  intro n
  simp [h]

lemma isFileAt_removeSubtree (dst : FPath) (fs : Fs) (p : FPath)
    (h : isFileAt p fs = false) : isFileAt p (removeSubtree dst fs) = false := by
  by_cases hp : dst.isPrefixOf p = true
  · simp [isFileAt, lookupFs_removeSubtree_of_pre dst fs p hp]
  · rw [isFileAt, lookupFs_removeSubtree_of_not dst fs p
      (Bool.eq_false_iff.mpr hp)]
    exact h

lemma isFileAt_append (a b : Fs) (p : FPath)
    (ha : isFileAt p a = false) (hb : isFileAt p b = false) :
    isFileAt p (a ++ b) = false := by
  unfold isFileAt at *
  rw [lookupFs_append]
  rcases h : lookupFs a p with _ | n
  · simpa [h] using hb
  · rw [h] at ha
    cases n <;> simp_all

lemma lookupFs_of_all_dir (l : Fs) (p : FPath)
    (h : ∀ e ∈ l, e.2 = Node.dir) :
    lookupFs l p = none ∨ lookupFs l p = some Node.dir := by
  induction l with
  | nil => simp [lookupFs]
  | cons e rest ih =>
    obtain ⟨q, n⟩ := e
    have hn : n = Node.dir := h (q, n) (by simp)
    subst hn
    by_cases hq : q = p
    · simp [lookupFs, hq]
    · simpa [lookupFs, hq] using ih (fun e he => h e (by simp [he]))

lemma isFileAt_of_all_dir (l : Fs) (p : FPath)
    (h : ∀ e ∈ l, e.2 = Node.dir) : isFileAt p l = false := by
  rcases lookupFs_of_all_dir l p h with h' | h' <;> simp [isFileAt, h']

lemma not_pre_of_child (src dst q : FPath)
    (hsd : src.isPrefixOf dst = false) (hds : dst.isPrefixOf src = false)
    (hpre : src.isPrefixOf q = true) (hlen : q.length = src.length + 1) :
    dst.isPrefixOf q = false := by
  rw [Bool.eq_false_iff]
  intro hdq
  rw [List.isPrefixOf_iff_prefix] at hpre hdq
  rcases le_or_lt dst.length src.length with hle | hlt
  · have : dst <+: src := List.prefix_of_prefix_length_le hdq hpre hle
    rw [← List.isPrefixOf_iff_prefix] at this
    simp [this] at hds
  · have hqlen : dst.length ≤ q.length := hdq.length_le
    have hdq_len : dst.length = q.length := by omega
    have : dst = q := List.IsPrefix.eq_of_length hdq hdq_len
    subst this
    rw [← List.isPrefixOf_iff_prefix] at hpre
    simp [hpre] at hsd

lemma childEntries_append (root : FPath) (a b : Fs) :
    childEntries root (a ++ b) = childEntries root a ++ childEntries root b := by
  unfold childEntries
  exact List.filterMap_append a b _

lemma filterMap_filter_of {α β : Type} (f : α → Option β) (P : α → Bool)
    (l : List α) (h : ∀ a ∈ l, f a ≠ none → P a = true) :
    (l.filter P).filterMap f = l.filterMap f := by
  induction l with
  | nil => rfl
  | cons a rest ih =>
    have ih' := ih (fun a ha => h a (by simp [ha]))
    by_cases hP : P a = true
    · simp only [List.filter_cons, hP, if_true, List.filterMap_cons, ih']
    · have hf : f a = none := by
        by_contra hf
        exact hP (h a (by simp) hf)
      simp only [List.filter_cons, hP, Bool.false_eq_true, if_false,
        List.filterMap_cons, hf, ih']


lemma childEntries_eq_filterMap (root : FPath) (fs : Fs) :
    childEntries root fs = fs.filterMap (childSel root) := rfl

lemma childSel_eq_none_of (root : FPath) (e : FPath × Node)
    (h : ¬(root.isPrefixOf e.1 = true ∧ e.1.length = root.length + 1)) :
    childSel root e = none := by
  unfold childSel
  have hcond : (root.isPrefixOf e.1 && e.1.length == root.length + 1) = false := by
    rcases Bool.eq_false_or_eq_true (root.isPrefixOf e.1) with h1 | h1
    · have : ¬ e.1.length = root.length + 1 := fun hl => h ⟨h1, hl⟩
      simp [h1, this]
    · simp [h1]
  simp [hcond]

lemma childEntries_removeSubtree (src dst : FPath) (fs : Fs)
    (hsd : src.isPrefixOf dst = false) (hds : dst.isPrefixOf src = false) :
    childEntries src (removeSubtree dst fs) = childEntries src fs := by
  rw [childEntries_eq_filterMap, childEntries_eq_filterMap]
  apply filterMap_filter_of
  intro e _ hf
  by_cases hc : src.isPrefixOf e.1 = true ∧ e.1.length = src.length + 1
  · have := not_pre_of_child src dst e.1 hsd hds hc.1 hc.2
    simp [this]
  · exact absurd (childSel_eq_none_of src e hc) hf

lemma childEntries_nil_of (root : FPath) (l : Fs)
    (h : ∀ e ∈ l, ¬(root.isPrefixOf e.1 = true ∧ e.1.length = root.length + 1)) :
    childEntries root l = [] := by
  rw [childEntries_eq_filterMap, List.filterMap_eq_nil_iff]
  exact fun e he => childSel_eq_none_of root e (h e he)

lemma mem_missingInits (dst : FPath) (fs : Fs) (e : FPath × Node)
    (he : e ∈ missingInits dst fs) : e.1 <+: dst ∧ e.2 = Node.dir := by
  unfold missingInits at he
  rcases List.mem_map.mp he with ⟨q, hq, rfl⟩
  have hq' := List.mem_filter.mp hq
  exact ⟨(List.mem_inits q dst).mp hq'.1, rfl⟩

lemma childEntries_missingInits_nil (src dst : FPath) (fs : Fs)
    (hsd : src.isPrefixOf dst = false) :
    childEntries src (missingInits dst fs) = [] := by
  apply childEntries_nil_of
  intro e he hc
  have hpre := (mem_missingInits dst fs e he).1
  have hsq : src <+: e.1 := (List.isPrefixOf_iff_prefix).mp hc.1
  have : src <+: dst := hsq.trans hpre
  rw [← List.isPrefixOf_iff_prefix] at this
  simp [this] at hsd

lemma childEntries_copiesOf_nil (src dst : FPath)
    (entries : List (String × Node)) (hsd : src.isPrefixOf dst = false) :
    childEntries src (copiesOf dst entries) = [] := by
  apply childEntries_nil_of
  intro e he hc
  unfold copiesOf at he
  rcases List.mem_map.mp he with ⟨a, _, rfl⟩
  have hlen : (dst ++ [a.1]).length = dst.length + 1 := by simp
  have hlen' : dst.length = src.length := by
    have := hc.2
    rw [hlen] at this
    omega
  have hsq : src <+: dst ++ [a.1] := (List.isPrefixOf_iff_prefix).mp hc.1
  have hdq : dst <+: dst ++ [a.1] := List.prefix_append dst [a.1]
  have : src <+: dst := List.prefix_of_prefix_length_le hsq hdq (by omega)
  have heq : src = dst := List.IsPrefix.eq_of_length this (by omega)
  subst heq
  have hrefl : src.isPrefixOf src = true :=
    List.isPrefixOf_iff_prefix.mpr (List.prefix_refl src)
  rw [hrefl] at hsd
  exact Bool.noConfusion hsd

lemma subtreeList_append (root : FPath) (a b : Fs) :
    subtreeList root (a ++ b) = subtreeList root a ++ subtreeList root b := by
  unfold subtreeList
  exact List.filter_append a b

lemma subtreeList_removeSubtree_nil (root : FPath) (fs : Fs) :
    subtreeList root (removeSubtree root fs) = [] := by
  unfold subtreeList removeSubtree
  rw [List.filter_eq_nil_iff]
  intro e he
  have := (List.mem_filter.mp he).2
  simp only [Bool.not_eq_true'] at this
  simp [this]

lemma subtreeList_copiesOf_self (root : FPath)
    (entries : List (String × Node)) :
    subtreeList root (copiesOf root entries) = copiesOf root entries := by
  unfold subtreeList
  rw [List.filter_eq_self]
  intro e he
  unfold copiesOf at he
  rcases List.mem_map.mp he with ⟨a, _, rfl⟩
  simp only
  rw [List.isPrefixOf_iff_prefix]
  exact List.prefix_append root [a.1]

lemma inits_filter_pre {α : Type} [DecidableEq α] (l : List α)
    (p : List α → Bool) :
    l.inits.filter (fun q => l.isPrefixOf q && p q) =
      (if p l then [l] else []) := by
  induction l generalizing p with
  | nil =>
    rw [show ([] : List α).inits = [[]] from rfl, List.filter_cons]
    by_cases hp : p [] = true <;> simp [List.isPrefixOf, hp]
  | cons a t ih =>
    rw [List.inits_cons, List.filter_cons]
    have h0 : ((a :: t).isPrefixOf ([] : List α) && p []) = false := by
      simp [List.isPrefixOf]
    rw [h0]
    simp only [Bool.false_eq_true, if_false]
    have hmap : (t.inits.map (fun l => a :: l)).filter
        (fun q => (a :: t).isPrefixOf q && p q) =
        (t.inits.filter (fun q => t.isPrefixOf q && p (a :: q))).map
          (fun l => a :: l) := by
      rw [List.filter_map]
      congr 1
      apply List.filter_congr
      intro q _
      simp [Function.comp, List.isPrefixOf]
    rw [hmap, ih (fun q => p (a :: q))]
    by_cases hp : p (a :: t) = true <;> simp [hp]

lemma subtreeList_missingInits (root : FPath) (fs : Fs)
    (h : lookupFs fs root = none) :
    subtreeList root (missingInits root fs) = [(root, Node.dir)] := by
  unfold subtreeList missingInits
  rw [List.filter_map]
  have hcomp : ((fun e : FPath × Node => root.isPrefixOf e.1) ∘
      (fun q : FPath => (q, Node.dir))) = fun q : FPath => root.isPrefixOf q := rfl
  rw [hcomp]
  have hcomm : (root.inits.filter (fun q => (lookupFs fs q).isNone)).filter
      (fun q => root.isPrefixOf q) =
      root.inits.filter (fun q => root.isPrefixOf q && (lookupFs fs q).isNone) := by
    rw [List.filter_filter]
  rw [hcomm, inits_filter_pre root (fun q => (lookupFs fs q).isNone)]
  simp [h]

lemma lookupFs_map_dir (l : List FPath) (p : FPath) :
    lookupFs (l.map (fun q => (q, Node.dir))) p =
      (if p ∈ l then some Node.dir else none) := by
  induction l with
  | nil => simp [lookupFs]
  | cons a rest ih =>
    by_cases ha : a = p
    · subst ha
      simp [lookupFs]
    · have hne : p ≠ a := fun h => ha h.symm
      simp only [List.map_cons, lookupFs, ha, if_false]
      rw [ih]
      by_cases hp : p ∈ rest <;> simp [hp, List.mem_cons, hne]

lemma lookupFs_eq_none_of_ne (l : Fs) (p : FPath)
    (h : ∀ e ∈ l, e.1 ≠ p) : lookupFs l p = none := by
  induction l with
  | nil => rfl
  | cons e rest ih =>
    obtain ⟨q, n⟩ := e
    have hq : q ≠ p := h (q, n) (by simp)
    simp only [lookupFs, hq, if_false]
    exact ih (fun e he => h e (by simp [he]))

lemma lookupFs_copiesOf_short (dst : FPath) (entries : List (String × Node))
    (q : FPath) (h : q.length ≤ dst.length) :
    lookupFs (copiesOf dst entries) q = none := by
  apply lookupFs_eq_none_of_ne
  intro e he
  unfold copiesOf at he
  rcases List.mem_map.mp he with ⟨a, _, rfl⟩
  intro hq
  have hlen := congrArg List.length hq
  simp at hlen
  omega

lemma fsCopyBatch_eq (dst : FPath) (entries : List (String × Node)) (fs : Fs) :
    fsCopyBatch dst entries fs =
      (if entries.all (fun e => isFileNode e.2) then
        Except.ok (fs ++ copiesOf dst entries)
      else
        Except.error "failed to copy: source is not a regular file") := by
  induction entries generalizing fs with
  | nil => simp [fsCopyBatch, copiesOf]
  | cons e rest ih =>
    obtain ⟨n, nd⟩ := e
    cases nd with
    | file d =>
      rw [show fsCopyBatch dst ((n, Node.file d) :: rest) fs =
        fsCopyBatch dst rest (fs ++ [(dst ++ [n], Node.file d)]) from rfl]
      rw [ih]
      have hhead : ((n, Node.file d) :: rest).all (fun e => isFileNode e.2) =
          rest.all (fun e => isFileNode e.2) := by
        simp [List.all_cons, isFileNode]
      rw [hhead]
      by_cases hall : rest.all (fun e => isFileNode e.2) = true
      · rw [if_pos hall, if_pos hall]
        simp [copiesOf, List.append_assoc]
      · rw [if_neg hall, if_neg hall]
    | dir =>
      simp [fsCopyBatch, isFileNode]


lemma removeSubtree_of_subtree_nil (root : FPath) (fs : Fs)
    (h : subtreeList root fs = []) : removeSubtree root fs = fs := by
  unfold removeSubtree
  rw [List.filter_eq_self]
  intro e he
  have h2 := (List.filter_eq_nil_iff.mp h) e he
  simp only [Bool.not_eq_true] at h2
  simp [h2]

/-- Full characterisation of `Depot::replace_dir` on sane inputs: it
succeeds, producing `replace_dir_result`, exactly when every direct entry
of the source is a regular file; a directory entry makes the copy loop
fail. -/
lemma replace_dir_eq (src dst : FPath) (fs : Fs)
    (hsane : ReplaceDirSane src dst fs) :
    replace_dir src dst fs =
      (if (childEntries src fs).all (fun e => isFileNode e.2) then
        Except.ok (replace_dir_result src dst fs)
      else
        Except.error "failed to copy: source is not a regular file") := by
  obtain ⟨hsd, hds, hsrc, hdst, hinit⟩ := hsane
  unfold replace_dir
  rw [hsrc]
  simp only [Option.isNone_some, Bool.false_eq_true, if_false]
  have hremove : (if (lookupFs fs dst).isSome then remove_dir_all dst fs
      else Except.ok fs) = Except.ok (removeSubtree dst fs) := by
    rcases hdst with hdir | ⟨hnone, hsub⟩
    · rw [hdir]
      simp [remove_dir_all, hdir]
    · rw [hnone]
      simp [removeSubtree_of_subtree_nil dst fs hsub]
  have hinitR : ∀ q ∈ dst.inits, isFileAt q (removeSubtree dst fs) = false :=
    fun q hq => isFileAt_removeSubtree dst fs q (hinit q hq)
  have hcreate : create_dir_all dst (removeSubtree dst fs) =
      Except.ok (removeSubtree dst fs ++ missingInits dst (removeSubtree dst fs)) := by
    unfold create_dir_all
    have : dst.inits.any (fun q => isFileAt q (removeSubtree dst fs)) = false := by
      rw [List.any_eq_false]
      intro q hq
      simp [hinitR q hq]
    rw [this]
    simp
  have hlookmid : lookupFs (removeSubtree dst fs ++
      missingInits dst (removeSubtree dst fs)) src = some Node.dir := by
    rw [lookupFs_append, lookupFs_removeSubtree_of_not dst fs src hds, hsrc]
  have hreaddir : read_dir src (removeSubtree dst fs ++
      missingInits dst (removeSubtree dst fs)) =
      Except.ok (childEntries src fs) := by
    unfold read_dir
    rw [hlookmid]
    rw [childEntries_append, childEntries_removeSubtree src dst fs hsd hds,
      childEntries_missingInits_nil src dst _ hsd, List.append_nil]
  simp only [hremove, hcreate, hreaddir, fsCopyBatch_eq]
  rfl

/-- The destination subtree after a successful `replace_dir`: exactly the
recreated destination directory plus one copy per direct source entry. -/
lemma subtreeList_replace_dir_result (src dst : FPath) (fs : Fs) :
    subtreeList dst (replace_dir_result src dst fs) =
      (dst, Node.dir) :: copiesOf dst (childEntries src fs) := by
  unfold replace_dir_result
  rw [subtreeList_append, subtreeList_append,
    subtreeList_removeSubtree_nil,
    subtreeList_missingInits dst _ (lookupFs_removeSubtree_of_pre dst fs dst
      (List.isPrefixOf_iff_prefix.mpr (List.prefix_refl dst))),
    subtreeList_copiesOf_self]
  rfl

lemma isFileAt_of_lookup_none (l : Fs) (p : FPath)
    (h : lookupFs l p = none) : isFileAt p l = false := by
  simp [isFileAt, h]

lemma childEntries_replace_dir_result (src dst : FPath) (fs : Fs)
    (hsd : src.isPrefixOf dst = false) (hds : dst.isPrefixOf src = false) :
    childEntries src (replace_dir_result src dst fs) = childEntries src fs := by
  unfold replace_dir_result
  rw [childEntries_append, childEntries_append,
    childEntries_removeSubtree src dst fs hsd hds,
    childEntries_missingInits_nil src dst _ hsd,
    childEntries_copiesOf_nil src dst _ hsd]
  simp

lemma lookupFs_replace_dir_result_src (src dst : FPath) (fs : Fs)
    (hds : dst.isPrefixOf src = false) (hsrc : lookupFs fs src = some Node.dir) :
    lookupFs (replace_dir_result src dst fs) src = some Node.dir := by
  unfold replace_dir_result
  rw [lookupFs_append, lookupFs_append,
    lookupFs_removeSubtree_of_not dst fs src hds, hsrc]

lemma lookupFs_replace_dir_result_dst (src dst : FPath) (fs : Fs) :
    lookupFs (replace_dir_result src dst fs) dst = some Node.dir := by
  unfold replace_dir_result
  have hA : lookupFs (removeSubtree dst fs) dst = none :=
    lookupFs_removeSubtree_of_pre dst fs dst
      (List.isPrefixOf_iff_prefix.mpr (List.prefix_refl dst))
  have hB : lookupFs (missingInits dst (removeSubtree dst fs)) dst =
      some Node.dir := by
    unfold missingInits
    rw [lookupFs_map_dir]
    have hmem : dst ∈ (dst.inits.filter
        (fun q => (lookupFs (removeSubtree dst fs) q).isNone)) := by
      rw [List.mem_filter]
      exact ⟨(List.mem_inits dst dst).mpr (List.prefix_refl dst), by simp [hA]⟩
    simp [hmem]
  rw [lookupFs_append, lookupFs_append, hA, hB]

lemma initsFile_replace_dir_result (src dst : FPath) (fs : Fs)
    (hinit : ∀ q ∈ dst.inits, isFileAt q fs = false) :
    ∀ q ∈ dst.inits, isFileAt q (replace_dir_result src dst fs) = false := by
  intro q hq
  unfold replace_dir_result
  apply isFileAt_append
  · apply isFileAt_append
    · exact isFileAt_removeSubtree dst fs q (hinit q hq)
    · apply isFileAt_of_all_dir
      intro e he
      exact (mem_missingInits dst _ e he).2
  · apply isFileAt_of_lookup_none
    apply lookupFs_copiesOf_short
    exact ((List.mem_inits q dst).mp hq).length_le

/-- Sanity of the inputs is preserved by a `replace_dir` run, so the
primitive can be re-applied to its own output. -/
lemma replaceDirSane_result (src dst : FPath) (fs : Fs)
    (h : ReplaceDirSane src dst fs) :
    ReplaceDirSane src dst (replace_dir_result src dst fs) := by
  obtain ⟨hsd, hds, hsrc, _, hinit⟩ := h
  refine ⟨hsd, hds, ?_, Or.inl ?_, ?_⟩
  · exact lookupFs_replace_dir_result_src src dst fs hds hsrc
  · exact lookupFs_replace_dir_result_dst src dst fs
  · exact initsFile_replace_dir_result src dst fs hinit

lemma pre_of_roots_absurd (a b : FPath)
    (hab : a.isPrefixOf b = false) (hba : b.isPrefixOf a = false)
    (p : FPath) (hb : b <+: p) : a.isPrefixOf p = false := by
  rw [Bool.eq_false_iff]
  intro hap
  rw [List.isPrefixOf_iff_prefix] at hap
  rcases le_or_lt a.length b.length with hle | hlt
  · have : a <+: b := List.prefix_of_prefix_length_le hap hb hle
    rw [← List.isPrefixOf_iff_prefix] at this
    simp [this] at hab
  · have : b <+: a := List.prefix_of_prefix_length_le hb hap (by omega)
    rw [← List.isPrefixOf_iff_prefix] at this
    simp [this] at hba

lemma ext_not_pre (a b x y : FPath)
    (hab : a.isPrefixOf b = false) (hba : b.isPrefixOf a = false) :
    (a ++ x).isPrefixOf (b ++ y) = false := by
  rw [Bool.eq_false_iff]
  intro hpre
  rw [List.isPrefixOf_iff_prefix] at hpre
  have ha : a <+: b ++ y := (List.prefix_append a x).trans hpre
  have := pre_of_roots_absurd a b hab hba (b ++ y) (List.prefix_append b y)
  rw [← List.isPrefixOf_iff_prefix] at ha
  rw [ha] at this
  exact Bool.noConfusion this

lemma lookupFs_mem (fs : Fs) (p : FPath) (n : Node)
    (h : lookupFs fs p = some n) : (p, n) ∈ fs := by
  induction fs with
  | nil => exact absurd h (by simp [lookupFs])
  | cons e rest ih =>
    obtain ⟨q, m⟩ := e
    by_cases hq : q = p
    · subst hq
      rw [lookupFs, if_pos rfl] at h
      rw [Option.some_inj] at h
      subst h
      simp
    · rw [lookupFs, if_neg hq] at h
      simp [ih h]

lemma lookupFs_none_of_subtree_nil (root : FPath) (fs : Fs) (p : FPath)
    (h : subtreeList root fs = []) (hp : root.isPrefixOf p = true) :
    lookupFs fs p = none := by
  rcases hl : lookupFs fs p with _ | n
  · rfl
  · have hmem := lookupFs_mem fs p n hl
    have := (List.filter_eq_nil_iff.mp h) (p, n) hmem
    simp [hp] at this

lemma subtree_nil_key_false (root : FPath) (fs : Fs)
    (h : subtreeList root fs = []) :
    ∀ e ∈ fs, root.isPrefixOf e.1 = false := by
  intro e he
  have h2 := (List.filter_eq_nil_iff.mp h) e he
  simp only [Bool.not_eq_true] at h2
  exact h2

lemma isFileAt_initRepo (g q : FPath) (h : q ≠ g ++ ["HEAD"]) :
    isFileAt q (initRepoEntries g) = false := by
  have hne : ¬ (g ++ ["HEAD"] = q) := fun he => h he.symm
  simp only [initRepoEntries, isFileAt, lookupFs]
  split_ifs <;> simp_all

lemma childEntries_cons_none (root : FPath) (e : FPath × Node) (l : Fs)
    (h : childSel root e = none) :
    childEntries root (e :: l) = childEntries root l := by
  rw [childEntries_eq_filterMap, childEntries_eq_filterMap,
    List.filterMap_cons, h]

lemma ext_pre_of_roots_absurd (a b x : FPath)
    (hab : a.isPrefixOf b = false) (hba : b.isPrefixOf a = false)
    (p : FPath) (hb : b <+: p) : (a ++ x).isPrefixOf p = false := by
  rw [Bool.eq_false_iff]
  intro hpre
  rw [List.isPrefixOf_iff_prefix] at hpre
  have ha : a <+: p := (List.prefix_append a x).trans hpre
  have := pre_of_roots_absurd a b hab hba p hb
  rw [← List.isPrefixOf_iff_prefix] at ha
  rw [ha] at this
  exact Bool.noConfusion this

lemma mem_initRepo_pre (g : FPath) (e : FPath × Node)
    (he : e ∈ initRepoEntries g) : g <+: e.1 := by
  simp only [initRepoEntries, List.mem_cons, List.not_mem_nil, or_false] at he
  rcases he with rfl | rfl | rfl | rfl | rfl | rfl | rfl
  · exact List.prefix_refl g
  all_goals exact List.prefix_append g _

lemma lookupFs_cons_ne (p : FPath) (n : Node) (l : Fs) (q : FPath)
    (hne : p ≠ q) : lookupFs ((p, n) :: l) q = lookupFs l q := by
  simp [lookupFs, hne]

lemma isFileAt_cons_ne (p : FPath) (n : Node) (l : Fs) (q : FPath)
    (hne : p ≠ q) : isFileAt q ((p, n) :: l) = isFileAt q l := by
  simp [isFileAt, lookupFs_cons_ne p n l q hne]

lemma lookupFs_initRepo_refsHeads (g : FPath) :
    lookupFs (initRepoEntries g) (g ++ ["refs", "heads"]) = some Node.dir := by
  have h0 : ∀ x y : List String, x ≠ y → ¬ (g ++ x = g ++ y) := by
    intro x y hxy he
    exact hxy (List.append_cancel_left he)
  have hg : ¬ (g = g ++ ["refs", "heads"]) := by
    intro he
    have := congrArg List.length he
    simp at this
  simp only [initRepoEntries, lookupFs]
  rw [if_neg hg, if_neg (h0 _ _ (by decide)), if_neg (h0 _ _ (by decide)),
    if_neg (h0 _ _ (by decide)), if_neg (h0 _ _ (by decide))]
  simp

lemma initRepo_objects_dirs (g : FPath) (e : FPath × Node)
    (he : e ∈ initRepoEntries g)
    (hpre : (g ++ ["objects"]).isPrefixOf e.1 = true) : e.2 = Node.dir := by
  simp only [initRepoEntries, List.mem_cons, List.not_mem_nil, or_false] at he
  rcases he with rfl | rfl | rfl | rfl | rfl | rfl | rfl
  · rfl
  · rfl
  · rfl
  · rfl
  all_goals
    exfalso
    rw [List.isPrefixOf_iff_prefix] at hpre
    have := (List.prefix_append_right_inj g).mp hpre
    revert this
    decide

lemma clone_alternates_fs_bare_eq (src dst : FPath) (fs : Fs) :
    clone_alternates_fs src dst true fs =
      (dst ++ ["objects", "info", "alternates"],
        Node.file (renderPath (src ++ ["objects"]) ++ "\n")) ::
        (fs ++ initRepoEntries dst) := rfl

lemma alt_ne_of_le (refsPath q : FPath)
    (hlen : q.length ≤ refsPath.length + 2) :
    refsPath ++ ["objects", "info", "alternates"] ≠ q := by
  intro he
  have := congrArg List.length he
  simp at this
  omega

/-- After `clone_alternates_fs` creates the ref mirror, the inputs of the
subsequent `replace_dir` call in `fetch_repo` are sane. -/
lemma sane_after_clone (objectsPath refsPath : FPath) (remote : String)
    (fs : Fs)
    (h1 : objectsPath.isPrefixOf refsPath = false)
    (h2 : refsPath.isPrefixOf objectsPath = false)
    (hsrc : lookupFs fs (objectsPath ++ ["refs", "remotes", remote]) =
      some Node.dir)
    (hempty : subtreeList refsPath fs = [])
    (hinit : ∀ q ∈ (refsPath ++ ["refs", "heads"]).inits,
      isFileAt q fs = false) :
    ReplaceDirSane (objectsPath ++ ["refs", "remotes", remote])
      (refsPath ++ ["refs", "heads"])
      (clone_alternates_fs objectsPath refsPath true fs) := by
  rw [clone_alternates_fs_bare_eq]
  refine ⟨ext_not_pre objectsPath refsPath _ _ h1 h2,
    ext_not_pre refsPath objectsPath _ _ h2 h1, ?_, Or.inl ?_, ?_⟩
  · have hne : refsPath ++ ["objects", "info", "alternates"] ≠
        objectsPath ++ ["refs", "remotes", remote] := by
      intro he
      have hpre : (refsPath ++ ["objects", "info", "alternates"]).isPrefixOf
          (objectsPath ++ ["refs", "remotes", remote]) = false :=
        ext_not_pre refsPath objectsPath _ _ h2 h1
      rw [he] at hpre
      rw [List.isPrefixOf_iff_prefix.mpr (List.prefix_refl _)] at hpre
      exact Bool.noConfusion hpre
    rw [lookupFs_cons_ne _ _ _ _ hne, lookupFs_append, hsrc]
  · have hne : refsPath ++ ["objects", "info", "alternates"] ≠
        refsPath ++ ["refs", "heads"] := alt_ne_of_le refsPath _ (by simp)
    rw [lookupFs_cons_ne _ _ _ _ hne, lookupFs_append,
      lookupFs_none_of_subtree_nil refsPath fs _ hempty
        (List.isPrefixOf_iff_prefix.mpr (List.prefix_append refsPath _)),
      lookupFs_initRepo_refsHeads]
  · intro q hq
    have hqpre : q <+: refsPath ++ ["refs", "heads"] := (List.mem_inits _ _).mp hq
    have hqlen : q.length ≤ refsPath.length + 2 := by
      have := hqpre.length_le
      simpa using this
    rw [isFileAt_cons_ne _ _ _ _ (alt_ne_of_le refsPath q hqlen)]
    apply isFileAt_append
    · exact hinit q hq
    · apply isFileAt_initRepo
      intro he
      subst he
      have := (List.prefix_append_right_inj refsPath).mp hqpre
      revert this
      decide

lemma heads_not_pre_alt (refsPath : FPath) :
    (refsPath ++ ["refs", "heads"]).isPrefixOf
      (refsPath ++ ["objects", "info", "alternates"]) = false := by
  rw [Bool.eq_false_iff]
  intro h
  rw [List.isPrefixOf_iff_prefix] at h
  have := (List.prefix_append_right_inj refsPath).mp h
  revert this
  decide

lemma childEntries_clone (objectsPath refsPath : FPath) (remote : String)
    (fs : Fs)
    (h1 : objectsPath.isPrefixOf refsPath = false)
    (h2 : refsPath.isPrefixOf objectsPath = false) :
    childEntries (objectsPath ++ ["refs", "remotes", remote])
      (clone_alternates_fs objectsPath refsPath true fs) =
    childEntries (objectsPath ++ ["refs", "remotes", remote]) fs := by
  have hsel : childSel (objectsPath ++ ["refs", "remotes", remote])
      (refsPath ++ ["objects", "info", "alternates"],
        Node.file (renderPath (objectsPath ++ ["objects"]) ++ "\n")) = none := by
    apply childSel_eq_none_of
    intro hc
    have hpre := ext_not_pre objectsPath refsPath
      ["refs", "remotes", remote] ["objects", "info", "alternates"] h1 h2
    rw [hc.1] at hpre
    exact Bool.noConfusion hpre
  have hinitnil : childEntries (objectsPath ++ ["refs", "remotes", remote])
      (initRepoEntries refsPath) = [] := by
    apply childEntries_nil_of
    intro e he hc
    have hpre := ext_pre_of_roots_absurd objectsPath refsPath
      ["refs", "remotes", remote] h1 h2 e.1 (mem_initRepo_pre refsPath e he)
    rw [hc.1] at hpre
    exact Bool.noConfusion hpre
  rw [clone_alternates_fs_bare_eq, childEntries_cons_none _ _ _ hsel,
    childEntries_append, hinitnil, List.append_nil]

lemma lookup_alt_in_result (objectsPath refsPath : FPath) (remote : String)
    (fs1 : Fs)
    (halt : lookupFs fs1 (refsPath ++ ["objects", "info", "alternates"]) =
      some (Node.file (renderPath (objectsPath ++ ["objects"]) ++ "\n"))) :
    lookupFs (replace_dir_result (objectsPath ++ ["refs", "remotes", remote])
        (refsPath ++ ["refs", "heads"]) fs1)
      (refsPath ++ ["objects", "info", "alternates"]) =
      some (Node.file (renderPath (objectsPath ++ ["objects"]) ++ "\n")) := by
  unfold replace_dir_result
  rw [lookupFs_append, lookupFs_append,
    lookupFs_removeSubtree_of_not _ _ _ (heads_not_pre_alt refsPath), halt]

lemma objects_subtree_clean (objectsPath refsPath : FPath) (remote : String)
    (fs : Fs) (hempty : subtreeList refsPath fs = []) :
    ∀ e ∈ subtreeList (refsPath ++ ["objects"])
      (replace_dir_result (objectsPath ++ ["refs", "remotes", remote])
        (refsPath ++ ["refs", "heads"])
        (clone_alternates_fs objectsPath refsPath true fs)),
      e.1 = refsPath ++ ["objects", "info", "alternates"] ∨
        e.2 = Node.dir := by
  intro e he
  have hm := List.mem_filter.mp he
  have hpre : (refsPath ++ ["objects"]).isPrefixOf e.1 = true := hm.2
  have hemem := hm.1
  unfold replace_dir_result at hemem
  rcases List.mem_append.mp hemem with hAB | hC
  · rcases List.mem_append.mp hAB with hA | hB
    · have he1 : e ∈ clone_alternates_fs objectsPath refsPath true fs :=
        (List.mem_filter.mp hA).1
      rw [clone_alternates_fs_bare_eq] at he1
      rcases List.mem_cons.mp he1 with rfl | he2
      · left
        rfl
      · rcases List.mem_append.mp he2 with hfs | hinitm
        · exfalso
          have hkey := subtree_nil_key_false refsPath fs hempty e hfs
          have hrp : refsPath <+: e.1 :=
            (List.prefix_append refsPath _).trans
              ((List.isPrefixOf_iff_prefix).mp hpre)
          rw [← List.isPrefixOf_iff_prefix] at hrp
          rw [hrp] at hkey
          exact Bool.noConfusion hkey
        · right
          exact initRepo_objects_dirs refsPath e hinitm hpre
    · right
      exact (mem_missingInits _ _ e hB).2
  · exfalso
    unfold copiesOf at hC
    rcases List.mem_map.mp hC with ⟨a, _, rfl⟩
    rw [List.isPrefixOf_iff_prefix] at hpre
    rw [List.append_assoc] at hpre
    have hq := (List.prefix_append_right_inj refsPath).mp hpre
    have h2 := (List.cons_prefix_cons.mp hq).1
    exact absurd h2 (by decide)

/-- C8: after a successful fetch, `fetch_repo` synchronises the ref mirror:
when the ref mirror repository does not exist, it is created as a bare
alternates clone of the object mirror (only an alternates pointer, no object
content, appears under its object store), and its `refs/heads` directory
is replaced wholesale by the contents of the object mirror's
`refs/remotes/<remote>` directory. -/
theorem fetch_repo_ref_mirror_sync
    (objectsPath refsPath : FPath) (remote : String) (fs fs' : Fs)
    (h1 : objectsPath.isPrefixOf refsPath = false)
    (h2 : refsPath.isPrefixOf objectsPath = false)
    (hsrc : lookupFs fs (objectsPath ++ ["refs", "remotes", remote]) =
      some Node.dir)
    (hempty : subtreeList refsPath fs = [])
    (hinit : ∀ q ∈ (refsPath ++ ["refs", "heads"]).inits,
      isFileAt q fs = false)
    (h : sync_refs_mirror objectsPath refsPath remote fs = Except.ok fs') :
    repoExistsAt refsPath fs = false ∧
    lookupFs fs' (refsPath ++ ["objects", "info", "alternates"]) =
      some (Node.file (renderPath (objectsPath ++ ["objects"]) ++ "\n")) ∧
    (∀ e ∈ subtreeList (refsPath ++ ["objects"]) fs',
      e.1 = refsPath ++ ["objects", "info", "alternates"] ∨
        e.2 = Node.dir) ∧
    subtreeList (refsPath ++ ["refs", "heads"]) fs' =
      (refsPath ++ ["refs", "heads"], Node.dir) ::
        copiesOf (refsPath ++ ["refs", "heads"])
          (childEntries (objectsPath ++ ["refs", "remotes", remote]) fs) := by
  have hnorepo : repoExistsAt refsPath fs = false := by
    unfold repoExistsAt
    rw [lookupFs_none_of_subtree_nil refsPath fs _ hempty
      (List.isPrefixOf_iff_prefix.mpr (List.prefix_append refsPath _))]
    rfl
  unfold sync_refs_mirror at h
  rw [hnorepo] at h
  simp only [Bool.false_eq_true, if_false] at h
  have hsane := sane_after_clone objectsPath refsPath remote fs h1 h2 hsrc
    hempty hinit
  rw [replace_dir_eq _ _ _ hsane] at h
  by_cases hall : (childEntries (objectsPath ++ ["refs", "remotes", remote])
      (clone_alternates_fs objectsPath refsPath true fs)).all
      (fun e => isFileNode e.2) = true
  · rw [if_pos hall] at h
    have hfs' : fs' = replace_dir_result
        (objectsPath ++ ["refs", "remotes", remote])
        (refsPath ++ ["refs", "heads"])
        (clone_alternates_fs objectsPath refsPath true fs) :=
      (Except.ok.inj h).symm
    subst hfs'
    refine ⟨hnorepo, ?_, objects_subtree_clean objectsPath refsPath remote fs
      hempty, ?_⟩
    · apply lookup_alt_in_result
      rw [clone_alternates_fs_bare_eq]
      simp [lookupFs]
    · rw [subtreeList_replace_dir_result,
        childEntries_clone objectsPath refsPath remote fs h1 h2]
  · rw [if_neg hall] at h
    exact Except.noConfusion h

lemma startsWithSlash_renderPath (p : FPath) (h : p ≠ []) :
    startsWithSlash (renderPath p) = true := by
  rcases p with _ | ⟨c, rest⟩
  · exact absurd rfl h
  · rfl

lemma replace_dir_src_missing (src dst : FPath) (g : Fs)
    (h : lookupFs g src = none) :
    replace_dir src dst g =
      Except.error "attempted to replace with nonexistent directory" := by
  unfold replace_dir
  rw [h]
  rfl

/-- C1 (code bug): `main` (src/main.rs lines 419-431) writes the
`fatal: <message>: <root cause>` line on an uncaught error, but the `Err`
arm never calls `process::exit`, so execution falls off the end of `main`
and the process exits 0, not nonzero; and an error without a cause is
printed without the `: <root cause>` part. -/
theorem main_fatal_fallthrough :
    main_result_handler (Except.error
      ⟨"failed to find tree", ["No such file or directory (os error 2)"]⟩) =
      (["fatal: failed to find tree: No such file or directory (os error 2)"],
        0) ∧
    main_result_handler (Except.error ⟨"no commands specified", []⟩) =
      (["fatal: no commands specified"], 0) := by
  exact ⟨rfl, rfl⟩

/-- C3: a project string that starts or ends with a path separator makes
`fetch_repo` return the `invalid project path` error immediately: the model
performs no step at all (no filesystem or network I/O). -/
theorem fetch_repo_invalid_project_no_io (o : FetchOracle)
    (depotPath remoteName remoteUrl project branch : String)
    (depth : Option Int)
    (h : startsWithSlash project = true ∨ endsWithSlash project = true) :
    fetch_repo_model o depotPath remoteName remoteUrl project branch depth =
      ([], Except.error ("invalid project path " ++ project)) := by
  rcases h with h | h
  · simp [fetch_repo_model, h]
  · by_cases hs : startsWithSlash project = true <;>
      simp [fetch_repo_model, hs, h]

theorem fetch_repo_invalid_project_no_io_witness :
    startsWithSlash "/x" = true ∧
    fetch_repo_model
      ⟨Except.ok (), Except.ok (), Except.ok (), true, "", true, Except.ok ()⟩
      "/depot" "origin" "https://example.com/" "/x" "main" none =
      ([], Except.error "invalid project path /x") :=
  ⟨by decide, fetch_repo_invalid_project_no_io _ _ _ _ _ _ _
    (Or.inl (by decide))⟩

/-- C4 (amended): `replace_dir` fails when the source does not exist;
otherwise it deletes the destination subtree, recreates the destination
directory and copies each direct source entry via a file copy that rejects
non-files: when every direct entry is a regular file it succeeds and the
destination subtree is exactly the fresh directory plus those copies; when
some direct entry is a subdirectory it fails. -/
theorem replace_dir_full_behavior (src dst : FPath) (fs : Fs)
    (hsd : src.isPrefixOf dst = false) (hds : dst.isPrefixOf src = false)
    (hdst : lookupFs fs dst = some Node.dir ∨
      (lookupFs fs dst = none ∧ subtreeList dst fs = []))
    (hinit : ∀ q ∈ dst.inits, isFileAt q fs = false) :
    (lookupFs fs src = none →
      replace_dir src dst fs =
        Except.error "attempted to replace with nonexistent directory") ∧
    (lookupFs fs src = some Node.dir →
      ((childEntries src fs).all (fun e => isFileNode e.2) = true →
        replace_dir src dst fs =
          Except.ok (replace_dir_result src dst fs) ∧
        subtreeList dst (replace_dir_result src dst fs) =
          (dst, Node.dir) :: copiesOf dst (childEntries src fs)) ∧
      ((childEntries src fs).all (fun e => isFileNode e.2) = false →
        replace_dir src dst fs =
          Except.error "failed to copy: source is not a regular file")) := by
  refine ⟨fun h => replace_dir_src_missing src dst fs h, fun hsrc => ?_⟩
  have heq := replace_dir_eq src dst fs ⟨hsd, hds, hsrc, hdst, hinit⟩
  constructor
  · intro hall
    rw [heq, if_pos hall]
    exact ⟨rfl, subtreeList_replace_dir_result src dst fs⟩
  · intro hall
    rw [heq, if_neg (by simp [hall])]

theorem replace_dir_full_behavior_witness :
    (List.isPrefixOf ["s"] ["t"] = false) ∧
    replace_dir ["s"] ["t"]
        [(["s"], Node.dir), (["s", "a"], Node.file "A"), (["t"], Node.dir)] =
      Except.ok (replace_dir_result ["s"] ["t"]
        [(["s"], Node.dir), (["s", "a"], Node.file "A"), (["t"], Node.dir)]) :=
  ⟨by decide,
    (((replace_dir_full_behavior ["s"] ["t"]
      [(["s"], Node.dir), (["s", "a"], Node.file "A"), (["t"], Node.dir)]
      (by decide) (by decide) (Or.inl (by decide)) (by decide)).2
      (by decide)).1 (by decide)).1⟩

/-- C4, counterexample to the claim as stated: a source whose direct entry
is a subdirectory.  The source exists, yet `replace_dir` does not copy the
entry into the destination; it fails, because `std::fs::copy` rejects
directories. -/
theorem replace_dir_dir_entry_cex :
    lookupFs [(["s"], Node.dir), (["s", "d"], Node.dir), (["t"], Node.dir)]
      ["s"] = some Node.dir ∧
    replace_dir ["s"] ["t"]
      [(["s"], Node.dir), (["s", "d"], Node.dir), (["t"], Node.dir)] =
      Except.error "failed to copy: source is not a regular file" := by
  exact ⟨by decide, rfl⟩

/-- C5: calling `replace_dir` twice yields identical destination contents
(the source, disjoint from the destination, is untouched by the first
call), and a nonexistent source is rejected. -/
theorem replace_dir_idempotent (src dst : FPath) (fs fs1 : Fs)
    (hsd : src.isPrefixOf dst = false) (hds : dst.isPrefixOf src = false)
    (hsrc : lookupFs fs src = some Node.dir)
    (hdst : lookupFs fs dst = some Node.dir ∨
      (lookupFs fs dst = none ∧ subtreeList dst fs = []))
    (hinit : ∀ q ∈ dst.inits, isFileAt q fs = false)
    (h1 : replace_dir src dst fs = Except.ok fs1) :
    (∃ fs2, replace_dir src dst fs1 = Except.ok fs2 ∧
      subtreeList dst fs2 = subtreeList dst fs1) ∧
    (∀ g : Fs, lookupFs g src = none →
      replace_dir src dst g =
        Except.error "attempted to replace with nonexistent directory") := by
  have hsane : ReplaceDirSane src dst fs := ⟨hsd, hds, hsrc, hdst, hinit⟩
  rw [replace_dir_eq src dst fs hsane] at h1
  by_cases hall : (childEntries src fs).all (fun e => isFileNode e.2) = true
  · rw [if_pos hall] at h1
    have hfs1 : fs1 = replace_dir_result src dst fs := (Except.ok.inj h1).symm
    subst hfs1
    have hsane1 := replaceDirSane_result src dst fs hsane
    have hchild := childEntries_replace_dir_result src dst fs hsd hds
    refine ⟨⟨replace_dir_result src dst (replace_dir_result src dst fs),
      ?_, ?_⟩, fun g hg => replace_dir_src_missing src dst g hg⟩
    · rw [replace_dir_eq src dst _ hsane1, hchild, if_pos hall]
    · rw [subtreeList_replace_dir_result, subtreeList_replace_dir_result,
        hchild]
  · rw [if_neg hall] at h1
    exact Except.noConfusion h1

/-- C6: the repository created by `clone_alternates` holds a pointer file
at `objects/info/alternates` inside its git directory (`dst` when bare,
`dst/.git` otherwise) whose content is exactly the absolute path of the
source's object directory followed by a single newline. -/
theorem clone_alternates_pointer_file (src dst : FPath) (bare : Bool)
    (fs : Fs) :
    lookupFs (clone_alternates_fs src dst bare fs)
      (gitDirOf dst bare ++ ["objects", "info", "alternates"]) =
      some (Node.file (renderPath (src ++ ["objects"]) ++ "\n")) ∧
    startsWithSlash (renderPath (src ++ ["objects"])) = true := by
  constructor
  · simp [clone_alternates_fs, writeFile, lookupFs]
  · exact startsWithSlash_renderPath _ (by simp)

/-- C7: a successful `clone_repo` leaves exactly one remote, whose fetch
URL is the ref-mirror path and whose push URL is the real remote URL; HEAD
is detached at the commit `branch` resolves to (on no local branch), and
that commit's tree is checked out into the working directory. -/
theorem clone_repo_postconditions (resolve : String → Option Nat)
    (depotPath remoteName remoteUrl project branch : String)
    (updateRefsOk checkoutOk : Bool) (st : RepoState)
    (h : clone_repo_model resolve depotPath remoteName remoteUrl project
      branch updateRefsOk checkoutOk = Except.ok st) :
    ∃ c, resolve branch = some c ∧
      st.head = Head.detached c ∧
      st.workdir = some c ∧
      (∀ b, st.head ≠ Head.onBranch b) ∧
      st.remotes = [⟨remoteName, refs_mirror depotPath remoteName project,
        some (remoteUrl ++ project)⟩] := by
  simp only [clone_repo_model, repo_add_remote, repo_set_pushurl,
    List.nil_append, List.any_nil, Bool.false_eq_true, if_false,
    List.any_cons, beq_self_eq_true, Bool.true_or, Bool.or_false, if_true,
    List.map_cons, List.map_nil] at h
  cases hupd : updateRefsOk with
  | false => rw [hupd] at h; simp at h
  | true =>
    rw [hupd] at h
    simp only [Bool.not_true, Bool.false_eq_true, if_false] at h
    cases hres : resolve branch with
    | none => rw [hres] at h; simp at h
    | some c =>
      rw [hres] at h
      cases hco : checkoutOk with
      | false => rw [hco] at h; simp at h
      | true =>
        rw [hco] at h
        simp only [Bool.not_true, Bool.false_eq_true, if_false] at h
        have hst := (Except.ok.inj h).symm
        refine ⟨c, rfl, ?_, ?_, ?_, ?_⟩ <;> subst hst <;> simp

theorem clone_repo_postconditions_witness :
    clone_repo_model (fun _ => some 7) "/d" "origin" "https://h/" "x" "main"
      true true = Except.ok
        ⟨[⟨"origin", refs_mirror "/d" "origin" "x", some "https://h/x"⟩],
          Head.detached 7, some 7⟩ ∧
    (∃ c, (fun _ : String => some 7) "main" = some c ∧
      (Head.detached 7 : Head) = Head.detached c) := by
  constructor
  · rfl
  · obtain ⟨c, h1, h2, -⟩ := clone_repo_postconditions (fun _ => some 7)
      "/d" "origin" "https://h/" "x" "main" true true
      ⟨[⟨"origin", refs_mirror "/d" "origin" "x", some "https://h/x"⟩],
        Head.detached 7, some 7⟩ rfl
    exact ⟨c, h1, h2.symm ▸ rfl⟩

/-- C9: clone target `origin/main` with no directory argument yields tree
root `main`; a target without a separator uses branch `master`; a target
with more than two components is rejected. -/
theorem clone_target_parsing (t : String) :
    cmd_clone_tree_root "origin/main" none = Except.ok "main" ∧
    ((slashComponents t).length = 1 →
      ∃ r, parse_target t = Except.ok (r, "master")) ∧
    (2 < (slashComponents t).length →
      parse_target t = Except.error ("invalid target '" ++ t ++ "'")) := by
  refine ⟨by rfl, ?_, ?_⟩
  · intro h
    rcases hs : slashComponents t with _ | ⟨r, rest⟩
    · rw [hs] at h
      simp at h
    · rcases rest with _ | ⟨b, rest2⟩
      · exact ⟨r, by unfold parse_target; rw [hs]⟩
      · rw [hs] at h
        simp at h
  · intro h
    rcases hs : slashComponents t with _ | ⟨a, _ | ⟨b, _ | ⟨c, rest⟩⟩⟩ <;>
      rw [hs] at h <;> try simp at h
    unfold parse_target
    rw [hs]

theorem clone_target_parsing_witness :
    (slashComponents "abc").length = 1 ∧
    (∃ r, parse_target "abc" = Except.ok (r, "master")) ∧
    2 < (slashComponents "a/b/c").length ∧
    parse_target "a/b/c" = Except.error "invalid target 'a/b/c'" :=
  ⟨by decide, (clone_target_parsing "abc").2.1 (by decide),
    by decide, (clone_target_parsing "a/b/c").2.2 (by decide)⟩

/-- The `url` crate can never produce an empty scheme: the empty-scheme arm
of the transport test in `fetch_repo` is unreachable. -/
lemma url_scheme_chars_ne_empty (l : List Char) :
    url_scheme_chars l ≠ some [] := by
  cases l with
  | nil => simp [url_scheme_chars]
  | cons c rest =>
    by_cases hc : isSchemeStartChar c = true
    · have hcs : isSchemeChar c = true := by
        simp only [isSchemeStartChar] at hc
        simp [isSchemeChar, Char.isAlphanum, hc]
      have hrun : (c :: rest).takeWhile isSchemeChar =
          c :: rest.takeWhile isSchemeChar := by
        rw [List.takeWhile_cons, if_pos hcs]
      simp only [url_scheme_chars, hc, if_true, hrun]
      intro h
      split at h
      · rw [Option.some_inj] at h
        exact List.noConfusion h
      · exact Option.noConfusion h
    · simp [url_scheme_chars, hc]

lemma url_scheme_ne_empty (u : String) : url_scheme u ≠ some "" := by
  unfold url_scheme
  intro h
  rcases hc : url_scheme_chars u.toList with _ | l
  · rw [hc] at h
    exact Option.noConfusion h
  · rw [hc] at h
    have h2 : String.mk l = "" := by simpa using h
    have hdata := congrArg String.data h2
    simp at hdata
    rw [hdata] at hc
    exact url_scheme_chars_ne_empty u.toList hc

lemma fetch_model_parse_none (o : FetchOracle)
    (depotPath remoteName remoteUrl project branch : String)
    (depth : Option Int)
    (hv1 : startsWithSlash project = false)
    (hv2 : endsWithSlash project = false)
    (ho : o.openRepo = Except.ok ()) (hr : o.remoteSetup = Except.ok ())
    (hs : url_scheme (remoteUrl ++ project ++ ".git") = none) :
    fetch_repo_model o depotPath remoteName remoteUrl project branch depth =
      ([FetchStep.openOrCreateBareRepo (objects_mirror depotPath project),
        FetchStep.configureRemote remoteName (remoteUrl ++ project ++ ".git")],
       Except.error "relative URL without a base") := by
  unfold fetch_repo_model
  simp [hv1, hv2, ho, hr, hs]

lemma fetch_model_native (o : FetchOracle)
    (depotPath remoteName remoteUrl project branch : String)
    (depth : Option Int)
    (hv1 : startsWithSlash project = false)
    (hv2 : endsWithSlash project = false)
    (ho : o.openRepo = Except.ok ()) (hr : o.remoteSetup = Except.ok ())
    (s : String) (hs : url_scheme (remoteUrl ++ project ++ ".git") = some s)
    (hsup : (schemeSupported s && depth.isNone) = true) :
    FetchStep.nativeFetch branch false false ∈
      (fetch_repo_model o depotPath remoteName remoteUrl project branch
        depth).1 := by
  unfold fetch_repo_model
  simp only [hv1, hv2, Bool.false_eq_true, if_false, ho, hr, hs, hsup,
    if_true]
  cases hnf : o.nativeFetchResult with
  | error e => simp
  | ok u => simp [fetchFinishRefs]

lemma fetch_model_external (o : FetchOracle)
    (depotPath remoteName remoteUrl project branch : String)
    (depth : Option Int)
    (hv1 : startsWithSlash project = false)
    (hv2 : endsWithSlash project = false)
    (ho : o.openRepo = Except.ok ()) (hr : o.remoteSetup = Except.ok ())
    (s : String) (hs : url_scheme (remoteUrl ++ project ++ ".git") = some s)
    (hsup : (schemeSupported s && depth.isNone) = false) :
    FetchStep.runGit (gitFetchArgs (objects_mirror depotPath project)
        remoteName branch depth) ∈
      (fetch_repo_model o depotPath remoteName remoteUrl project branch
        depth).1 ∧
    (o.gitExitSuccess = false →
      (fetch_repo_model o depotPath remoteName remoteUrl project branch
        depth).2 = Except.error ("git fetch failed: " ++ o.gitStderr)) := by
  unfold fetch_repo_model
  simp only [hv1, hv2, Bool.false_eq_true, if_false, ho, hr, hs, hsup]
  cases hg : o.gitExitSuccess with
  | false => exact ⟨by simp, fun _ => by simp⟩
  | true =>
    exact ⟨by simp [fetchFinishRefs], fun hcontra => Bool.noConfusion hcontra⟩

lemma fetch_model_steps_head (o : FetchOracle)
    (depotPath remoteName remoteUrl project branch : String)
    (depth : Option Int)
    (hv1 : startsWithSlash project = false)
    (hv2 : endsWithSlash project = false) :
    (fetch_repo_model o depotPath remoteName remoteUrl project branch
      depth).1.head? =
      some (FetchStep.openOrCreateBareRepo
        (objects_mirror depotPath project)) := by
  unfold fetch_repo_model
  simp only [hv1, hv2, Bool.false_eq_true, if_false]
  cases ho : o.openRepo with
  | error e => simp
  | ok u =>
    cases hr : o.remoteSetup with
    | error e => simp
    | ok v =>
      cases hs : url_scheme (remoteUrl ++ project ++ ".git") with
      | none => simp
      | some s =>
        by_cases hsup : (schemeSupported s && depth.isNone) = true
        · cases hnf : o.nativeFetchResult with
          | error e => simp [hsup]
          | ok w => simp [hsup, fetchFinishRefs]
        · rw [Bool.not_eq_true] at hsup
          cases hg : o.gitExitSuccess with
          | false => simp [hsup]
          | true => simp [hsup, fetchFinishRefs]

/-- C2 (amended): transport choice in `fetch_repo`.  When the repository
URL has no scheme, URL parsing fails and the call errors out after only
opening the mirror and configuring the remote — no fetch of either kind is
performed (the claim's scheme-less native fetch does not happen).  When the
URL parses, a supported scheme (`git`/`https`/`http`/`ssh`) with no
requested depth fetches natively with pruning and tag download disabled;
otherwise the external `git` binary is run with `--no-tags` (plus
`--depth N` when given) and the call fails when the binary does.  The
empty-scheme test in the source is unreachable. -/
theorem fetch_repo_transport_choice (o : FetchOracle)
    (depotPath remoteName remoteUrl project branch : String)
    (depth : Option Int)
    (hv1 : startsWithSlash project = false)
    (hv2 : endsWithSlash project = false)
    (ho : o.openRepo = Except.ok ()) (hr : o.remoteSetup = Except.ok ()) :
    (url_scheme (remoteUrl ++ project ++ ".git") = none →
      fetch_repo_model o depotPath remoteName remoteUrl project branch
        depth =
        ([FetchStep.openOrCreateBareRepo (objects_mirror depotPath project),
          FetchStep.configureRemote remoteName
            (remoteUrl ++ project ++ ".git")],
         Except.error "relative URL without a base")) ∧
    (∀ s, url_scheme (remoteUrl ++ project ++ ".git") = some s →
      ((schemeSupported s && depth.isNone) = true →
        FetchStep.nativeFetch branch false false ∈
          (fetch_repo_model o depotPath remoteName remoteUrl project branch
            depth).1) ∧
      ((schemeSupported s && depth.isNone) = false →
        FetchStep.runGit (gitFetchArgs (objects_mirror depotPath project)
            remoteName branch depth) ∈
          (fetch_repo_model o depotPath remoteName remoteUrl project branch
            depth).1 ∧
        (o.gitExitSuccess = false →
          (fetch_repo_model o depotPath remoteName remoteUrl project branch
            depth).2 =
            Except.error ("git fetch failed: " ++ o.gitStderr)))) ∧
    url_scheme (remoteUrl ++ project ++ ".git") ≠ some "" := by
  refine ⟨fun hs => fetch_model_parse_none o depotPath remoteName remoteUrl
    project branch depth hv1 hv2 ho hr hs, fun s hs => ⟨?_, ?_⟩,
    url_scheme_ne_empty _⟩
  · intro hsup
    exact fetch_model_native o depotPath remoteName remoteUrl project branch
      depth hv1 hv2 ho hr s hs hsup
  · intro hsup
    exact fetch_model_external o depotPath remoteName remoteUrl project
      branch depth hv1 hv2 ho hr s hs hsup

/-- C2, counterexample to the claim as stated: a scheme-less repository
URL with no requested depth.  The claim says the fetch is performed
natively; the code's `url::Url::parse` fails on a scheme-less URL, so
`fetch_repo` returns an error after only opening the mirror and
configuring the remote — no fetch step of any kind appears in the trace. -/
theorem fetch_repo_transport_schemeless_cex :
    url_scheme ("example.com/" ++ "x" ++ ".git") = none ∧
    fetch_repo_model
      ⟨Except.ok (), Except.ok (), Except.ok (), true, "", true,
        Except.ok ()⟩
      "/depot" "origin" "example.com/" "x" "main" none =
      ([FetchStep.openOrCreateBareRepo "/depot/objects/x.git",
        FetchStep.configureRemote "origin" "example.com/x.git"],
       Except.error "relative URL without a base") := by
  exact ⟨rfl, rfl⟩

theorem fetch_repo_transport_choice_witness :
    startsWithSlash "x" = false ∧
    url_scheme ("https://h/" ++ "x" ++ ".git") = some "https" ∧
    FetchStep.nativeFetch "main" false false ∈
      (fetch_repo_model
        ⟨Except.ok (), Except.ok (), Except.ok (), true, "", true,
          Except.ok ()⟩
        "/depot" "origin" "https://h/" "x" "main" none).1 :=
  ⟨by decide, rfl,
    (((fetch_repo_transport_choice
      ⟨Except.ok (), Except.ok (), Except.ok (), true, "", true,
        Except.ok ()⟩
      "/depot" "origin" "https://h/" "x" "main" none
      (by decide) (by decide) rfl rfl).2.1 "https" rfl).1 (by decide))⟩

/-- C10: `fetch_repo`'s validation rejects exactly the project strings that
start or end with `/`: the call returns the `invalid project path` error
with an empty step trace precisely in that case.  In particular the empty
project passes validation and its object mirror is `objects/.git` under
the depot, and a project with an embedded `..` component passes validation
and the call proceeds to open the object mirror. -/
theorem fetch_repo_validation_exact (o : FetchOracle)
    (depotPath remoteName remoteUrl branch : String) (depth : Option Int)
    (project : String) :
    (fetch_repo_model o depotPath remoteName remoteUrl project branch
        depth =
        ([], Except.error ("invalid project path " ++ project)) ↔
      (startsWithSlash project = true ∨ endsWithSlash project = true)) ∧
    objects_mirror "/depot" "" = "/depot/objects/.git" ∧
    (fetch_repo_model o depotPath remoteName remoteUrl "a/../b" branch
      depth).1.head? =
      some (FetchStep.openOrCreateBareRepo
        (objects_mirror depotPath "a/../b")) := by
  refine ⟨⟨?_, fetch_repo_invalid_project_no_io o depotPath remoteName
    remoteUrl project branch depth⟩, rfl,
    fetch_model_steps_head o depotPath remoteName remoteUrl "a/../b" branch
      depth (by decide) (by decide)⟩
  intro h
  rcases Bool.eq_false_or_eq_true (startsWithSlash project) with hs | hs
  · exact Or.inl hs
  · rcases Bool.eq_false_or_eq_true (endsWithSlash project) with he | he
    · exact Or.inr he
    · exfalso
      have hhead := fetch_model_steps_head o depotPath remoteName remoteUrl
        project branch depth hs he
      rw [h] at hhead
      exact Option.noConfusion hhead


theorem replace_dir_idempotent_witness :
    replace_dir ["s"] ["t"] exReplaceFs =
      Except.ok (replace_dir_result ["s"] ["t"] exReplaceFs) ∧
    (∃ fs2, replace_dir ["s"] ["t"]
        (replace_dir_result ["s"] ["t"] exReplaceFs) = Except.ok fs2 ∧
      subtreeList ["t"] fs2 =
        subtreeList ["t"] (replace_dir_result ["s"] ["t"] exReplaceFs)) :=
  ⟨rfl, (replace_dir_idempotent ["s"] ["t"] exReplaceFs
    (replace_dir_result ["s"] ["t"] exReplaceFs) (by decide) (by decide)
    (by decide) (Or.inl (by decide)) (by decide) rfl).1⟩

theorem fetch_repo_ref_mirror_sync_witness :
    sync_refs_mirror ["o"] ["r"] "origin" exMirrorFs =
      Except.ok exMirrorOut ∧
    subtreeList (["r"] ++ ["refs", "heads"]) exMirrorOut =
      ((["r"] ++ ["refs", "heads"]), Node.dir) ::
        copiesOf (["r"] ++ ["refs", "heads"])
          (childEntries (["o"] ++ ["refs", "remotes", "origin"])
            exMirrorFs) :=
  ⟨rfl, (fetch_repo_ref_mirror_sync ["o"] ["r"] "origin" exMirrorFs
    exMirrorOut (by decide) (by decide) (by decide) (by decide) (by decide)
    rfl).2.2.2⟩

